import Mathlib

/- Shallow embedding of the strudel_orchestrator compilation pipeline
   (src/strudel_orchestrator/schema.py and orchestrator.py).
   Strings are modelled as List Char; Python text-mode file reading is
   modelled including its universal-newlines translation; Python float
   values arising from decimal literals are modelled exactly as a
   mantissa together with a power-of-ten scale. -/

set_option maxRecDepth 8192

def lc (s : String) : List Char := s.data

/-- Model of the whitespace class used by Python str.strip and by the
regex whitespace class, restricted to the ASCII whitespace characters
(the Unicode additions are irrelevant to the inputs considered here). -/
def pyIsSpace (c : Char) : Bool :=
  c == ' ' || c == '\t' || c == '\n' || c == '\r' || c == '\x0b' || c == '\x0c'

/-- Model of Python str.strip with no argument. -/
def pyStrip (s : List Char) : List Char :=
  ((s.dropWhile pyIsSpace).reverse.dropWhile pyIsSpace).reverse

/-- Model of Python str.lower restricted to ASCII letters. -/
def pyLower (s : List Char) : List Char := s.map Char.toLower

def natOfDigits (ds : List Char) : Nat :=
  ds.foldl (fun acc c => acc * 10 + (c.toNat - 48)) 0

/-- An exact decimal value mant / 10 ^ scale, the model of a Python
float produced from a decimal literal or an integer. -/
structure Dec where
  mant : Int
  scale : Nat
deriving DecidableEq, Repr

/-- The rational value denoted by a Dec. -/
def decVal (d : Dec) : Rat := (d.mant : Rat) / (10 : Rat) ^ d.scale

/-- Model of the comparison tempo_value <= 0 on the exact value. -/
def decLeZero (d : Dec) : Bool := decide (d.mant ≤ 0)

/-- Model of float.is_integer on the exact value. -/
def decIsInt (d : Dec) : Bool := decide (d.mant % ((10 : Int) ^ d.scale) = 0)

/-- Model of the comparison numeric > 1 on the exact value. -/
def decGtOne (d : Dec) : Bool := decide ((10 : Int) ^ d.scale < d.mant)

/-- Model of Python str.find(sub, i) scanning the suffix of the whole
string that starts at position i; the returned index counts from the
start of the whole string. -/
def findFromAux (pat : List Char) : List Char → Nat → Option Nat
  | [], i => if pat.isPrefixOf ([] : List Char) then some i else Option.none
  | s@(_ :: t), i => if pat.isPrefixOf s then some i else findFromAux pat t (i + 1)

/-- Model of Python str.find(pat, start) on s. -/
def findFrom (pat s : List Char) (start : Nat) : Option Nat :=
  findFromAux pat (s.drop start) start

/-- Model of the Python substring test pat in s. -/
def containsSub (pat s : List Char) : Bool := (findFrom pat s 0).isSome

/-- The character class [a-z0-9] of SLUG_PATTERN. -/
def isLowerAlnum (c : Char) : Bool :=
  ('a' ≤ c && c ≤ 'z') || ('0' ≤ c && c ≤ '9')

/-- Matcher for the tail of SLUG_PATTERN, one character per step, after
the first character of the leading alphanumeric group has been read.
seen is true when the previous character was alphanumeric (the match may
stop here), false when it was a dash (an alphanumeric is mandatory).
nl selects the semantics of the dollar anchor: with nl = true it also
matches just before a single trailing newline (Python re semantics for
a pattern without MULTILINE), with nl = false only at the true end.
The three character classes involved are pairwise disjoint, so the
greedy regex match is deterministic and this matcher is faithful. -/
def slugTail (nl : Bool) : Bool → List Char → Bool
  | seen, [] => seen
  | seen, c :: t =>
    if isLowerAlnum c then slugTail nl true t
    else if c == '-' then seen && slugTail nl false t
    else nl && seen && c == '\n' && t.isEmpty

/-- Model of SLUG_PATTERN.match(s) being truthy: Python re.match with
the anchored kebab-case pattern and Python dollar semantics. -/
def slugMatch (s : List Char) : Bool :=
  match s with
  | c :: t => isLowerAlnum c && slugTail true true t
  | [] => false

/-- Modelled from the claim: the same kebab-case pattern but anchored at
the true start and true end of the string. -/
def slugMatchStrict (s : List Char) : Bool :=
  match s with
  | c :: t => isLowerAlnum c && slugTail false true t
  | [] => false

/-- The error messages of the schema and orchestrator modules, one
constructor per distinct message, interpolated data as payload. -/
inductive Err
  | malformedMetadata
  | frontMatterRequired
  | yamlParse (msg : List Char)
  | slugRequired
  | slugFormat
  | titleRequired
  | tempoRequired
  | tempoPositive
  | tempoNumeric
  | tagNonEmpty (i : Nat)
  | resourcesList
  | patternEmpty
  | lintFailed (msg : List Char)
deriving DecidableEq, Repr

/-- The warning messages, one constructor per distinct message. -/
inductive Warn
  | tempoInteger
  | moodRecommended
  | tagsRecommended
  | tagsAtLeastTwo
  | tagLowercase (tag : List Char)
  | summaryRecommended
  | resourceNonEmpty (i : Nat)
  | setTempo
  | gainLiteral (value : Dec)
deriving DecidableEq, Repr

/-- Model of the Python values decoded YAML metadata can contain. -/
inductive Val
  | pynone
  | bool (b : Bool)
  | int (n : Int)
  | float (d : Dec)
  | str (s : List Char)
  | list (xs : List Val)
  | dict (kvs : List (List Char × Val))

/-- Model of Python truthiness for the values above. -/
def pyTruthy : Val → Bool
  | .pynone => false
  | .bool b => b
  | .int n => n != 0
  | .float d => d.mant != 0
  | .str s => !s.isEmpty
  | .list xs => !xs.isEmpty
  | .dict kvs => !kvs.isEmpty

/-- Restricted model of Python float(s) on a string: only the plain
finite decimal literal forms sign, digits, optional point and fraction,
optional exponent. It feeds the simple aggregate validator model
validateMetadata below; the full outcome model, covering the special
values nan and inf, digit underscores and the uncaught overflow of the
integer branch, is pyFloatOfStringR and pyFloatR further down. -/
def pyFloatOfString (s : List Char) : Option Dec :=
  let t := pyStrip s
  let sgn : Int := if t.head? == some '-' then -1 else 1
  let t1 := if t.head? == some '-' || t.head? == some '+' then t.tail else t
  let d1 := t1.takeWhile Char.isDigit
  let r1 := t1.dropWhile Char.isDigit
  let hasDot := r1.head? == some '.'
  let afterDot := if hasDot then r1.tail else r1
  let d2 := if hasDot then afterDot.takeWhile Char.isDigit else []
  let r2 := if hasDot then afterDot.dropWhile Char.isDigit else r1
  if d1.isEmpty && d2.isEmpty then Option.none
  else
    let base : Dec := ⟨sgn * (natOfDigits d1 * 10 ^ d2.length + natOfDigits d2), d2.length⟩
    match r2 with
    | [] => some base
    | e :: u =>
      if e == 'e' || e == 'E' then
        let eneg := u.head? == some '-'
        let u1 := if u.head? == some '-' || u.head? == some '+' then u.tail else u
        let ds := u1.takeWhile Char.isDigit
        let rest := u1.dropWhile Char.isDigit
        if ds.isEmpty || !rest.isEmpty then Option.none
        else if eneg then some ⟨base.mant, base.scale + natOfDigits ds⟩
        else some ⟨base.mant * 10 ^ natOfDigits ds, base.scale⟩
      else Option.none

/-- Restricted model of Python float(x): Option.none models a raised
TypeError or ValueError (both caught at the call site). The special
float values and the uncaught OverflowError of the integer case are
covered by the full model pyFloatR below. -/
def pyFloat : Val → Option Dec
  | .int n => some ⟨n, 0⟩
  | .float d => some d
  | .bool b => some ⟨if b then 1 else 0, 0⟩
  | .str s => pyFloatOfString s
  | _ => Option.none

/-- The slug field checks of validate_metadata. -/
def slugErrs (slug : Val) : List Err :=
  if !pyTruthy slug then [Err.slugRequired]
  else
    match slug with
    | .str s => if slugMatch s then [] else [Err.slugFormat]
    | _ => [Err.slugFormat]

/-- The title field checks of validate_metadata. -/
def titleErrs (title : Val) : List Err :=
  match title with
  | .str s => if (pyStrip s).isEmpty then [Err.titleRequired] else []
  | _ => [Err.titleRequired]

/-- The tempo field checks of validate_metadata. -/
def tempoChecks (tempo : Val) : List Err × List Warn :=
  match tempo with
  | .pynone => ([Err.tempoRequired], [])
  | v =>
    match pyFloat v with
    | Option.none => ([Err.tempoNumeric], [])
    | some d =>
      if decLeZero d then ([Err.tempoPositive], [])
      else if !decIsInt d then ([], [Warn.tempoInteger])
      else ([], [])

/-- The mood field checks of validate_metadata. -/
def moodWarns (mood : Val) : List Warn :=
  match mood with
  | .str s => if (pyStrip s).isEmpty then [Warn.moodRecommended] else []
  | _ => [Warn.moodRecommended]

/-- The tags field checks of validate_metadata (1-based indices in the
per-element messages, as in the source). -/
def tagsChecks (tags : Val) : List Err × List Warn :=
  match tags with
  | .list ts =>
    if ts.isEmpty then ([], [Warn.tagsRecommended])
    else
      let fewW := if ts.length < 2 then [Warn.tagsAtLeastTwo] else []
      let perE := ts.enum.filterMap fun p =>
        match p.2 with
        | .str s => if (pyStrip s).isEmpty then some (Err.tagNonEmpty (p.1 + 1)) else Option.none
        | _ => some (Err.tagNonEmpty (p.1 + 1))
      let perW := ts.enum.filterMap fun p =>
        match p.2 with
        | .str s =>
          if !(pyStrip s).isEmpty && s != pyLower s then some (Warn.tagLowercase s)
          else Option.none
        | _ => Option.none
      (perE, fewW ++ perW)
  | _ => ([], [Warn.tagsRecommended])

/-- The summary field checks of validate_metadata. -/
def summaryWarns (summary : Val) : List Warn :=
  match summary with
  | .str s => if (pyStrip s).isEmpty then [Warn.summaryRecommended] else []
  | _ => [Warn.summaryRecommended]

/-- The resources field checks of validate_metadata; the argument is
the raw lookup result, Option.none when the key is absent. -/
def resourcesChecks (resources : Option Val) : List Err × List Warn :=
  match resources with
  | Option.none => ([], [])
  | some .pynone => ([], [])
  | some (.list rs) =>
    ([], rs.enum.filterMap fun p =>
      match p.2 with
      | .str s =>
        if (pyStrip s).isEmpty then some (Warn.resourceNonEmpty (p.1 + 1)) else Option.none
      | _ => some (Warn.resourceNonEmpty (p.1 + 1)))
  | some _ => ([Err.resourcesList], [])

/-- Model of dict.get(key) with a None default. -/
def getVal (kvs : List (List Char × Val)) (key : String) : Val :=
  (kvs.lookup (lc key)).getD Val.pynone

/-- Model of validate_metadata (schema.py). -/
def validateMetadata (metadata : Val) : List Err × List Warn :=
  match metadata with
  | .dict kvs =>
    let tempoC := tempoChecks (getVal kvs "tempo")
    let tagsC := tagsChecks (getVal kvs "tags")
    let resC := resourcesChecks (kvs.lookup (lc "resources"))
    (slugErrs (getVal kvs "slug") ++ titleErrs (getVal kvs "title") ++
       tempoC.1 ++ tagsC.1 ++ resC.1,
     tempoC.2 ++ moodWarns (getVal kvs "mood") ++ tagsC.2 ++
       summaryWarns (getVal kvs "summary") ++ resC.2)
  | _ => ([Err.malformedMetadata], [])

def stripPre (pat s : List Char) : Option (List Char) :=
  if pat.isPrefixOf s then some (s.drop pat.length) else Option.none

/-- One match attempt of GAIN_PATTERN at the start of s. The regex is
backslash-dot gain, open paren, whitespace, captured signed decimal,
whitespace, close paren. Because the digit, dot, whitespace and paren
classes are disjoint, greedy matching with backtracking succeeds here
exactly when the maximal munch of sign, digits, optional dot, digits is
nonempty on the digit side required by the pattern (at least one digit
after the dot when a dot was taken, otherwise at least one digit) and
is followed by optional whitespace and a closing parenthesis. On
success, returns the captured number and the remainder after the
closing parenthesis. -/
def matchGainAt (s : List Char) : Option (Dec × List Char) :=
  match stripPre (lc ".gain(") s with
  | Option.none => Option.none
  | some r0 =>
    let r1 := r0.dropWhile pyIsSpace
    let sgn : Int := if r1.head? == some '-' then -1 else 1
    let r2 := if r1.head? == some '-' || r1.head? == some '+' then r1.tail else r1
    let d1 := r2.takeWhile Char.isDigit
    let r3 := r2.dropWhile Char.isDigit
    let hasDot := r3.head? == some '.'
    let afterDot := if hasDot then r3.tail else r3
    let d2 := if hasDot then afterDot.takeWhile Char.isDigit else []
    let r4 := if hasDot then afterDot.dropWhile Char.isDigit else r3
    let ok := if hasDot then !d2.isEmpty else !d1.isEmpty
    if !ok then Option.none
    else
      match r4.dropWhile pyIsSpace with
      | ')' :: rest =>
        some (⟨sgn * (natOfDigits d1 * 10 ^ d2.length + natOfDigits d2), d2.length⟩, rest)
      | _ => Option.none

def gainScanAux : Nat → List Char → List Dec
  | 0, _ => []
  | fuel + 1, s =>
    match matchGainAt s with
    | some (d, rest) => d :: gainScanAux fuel rest
    | Option.none =>
      match s with
      | [] => []
      | _ :: t => gainScanAux fuel t

/-- Model of GAIN_PATTERN.finditer: the captured numbers of the
successive non-overlapping matches found scanning left to right. The
fuel argument of the auxiliary scanner only bounds the number of scan
steps; it starts at the string length and each step either consumes at
least one character (on a match, at least eight) or drops one, so the
fuel never runs out before the string does. -/
def gainScan (s : List Char) : List Dec := gainScanAux s.length s

/-- Model of validate_pattern_code (schema.py). The input is a Val
because the source guards against non-string input. -/
def validatePatternCode (code : Val) : List Err × List Warn :=
  match code with
  | .str s =>
    if (pyStrip s).isEmpty then ([Err.patternEmpty], [])
    else
      let stripped := s.filter fun c => c != ' '
      let tempoW :=
        if !containsSub (lc "setcpm(") stripped && !containsSub (lc "setcps(") stripped
        then [Warn.setTempo] else []
      let gainW := (gainScan s).foldl
        (fun acc d => if decGtOne d then acc ++ [Warn.gainLiteral d] else acc) []
      ([], tempoW ++ gainW)
  | _ => ([Err.patternEmpty], [])

/-- Model of the universal-newlines translation performed by Python
text-mode reading (pathlib.Path.read_text passes no newline argument,
so CR LF and lone CR in the file both become LF in the string). -/
def universalNewlines : List Char → List Char
  | [] => []
  | '\r' :: '\n' :: t => '\n' :: universalNewlines t
  | '\r' :: t => '\n' :: universalNewlines t
  | c :: t => c :: universalNewlines t

/-- The tail of _split_front_matter once the closing delimiter has been
located: slice out the metadata block, strip it, drop the delimiter of
length dlen and at most one following line terminator. -/
def frontSplitAt (raw_text : List Char) (endIndex dlen : Nat) :
    Option (List Char) × List Char :=
  let metadataText := (raw_text.take endIndex).drop 3
  let remainder := raw_text.drop (endIndex + dlen)
  let remainder2 :=
    if (lc "\r\n").isPrefixOf remainder then remainder.drop 2
    else if (lc "\n").isPrefixOf remainder then remainder.drop 1
    else remainder
  (some (pyStrip metadataText), remainder2)

/-- Model of _split_front_matter (orchestrator.py). -/
def splitFrontMatter (raw_text : List Char) : Option (List Char) × List Char :=
  if !(lc "---").isPrefixOf raw_text then (Option.none, raw_text)
  else
    match findFrom (lc "\n---") raw_text 3 with
    | some e => frontSplitAt raw_text e 4
    | Option.none =>
      match findFrom (lc "\r\n---") raw_text 3 with
      | some e => frontSplitAt raw_text e 5
      | Option.none => (Option.none, raw_text)

/-- Modelled from the claim: the simplified splitter that searches only
for the LF-prefixed closing delimiter, with no CRLF fallback. -/
def splitFrontMatterLFOnly (raw_text : List Char) : Option (List Char) × List Char :=
  if !(lc "---").isPrefixOf raw_text then (Option.none, raw_text)
  else
    match findFrom (lc "\n---") raw_text 3 with
    | some e => frontSplitAt raw_text e 4
    | Option.none => (Option.none, raw_text)

/-- Model of TrackArtifact (orchestrator.py). -/
structure Artifact where
  path : List Char
  raw_content : List Char
  metadata : Val
  code : Val
  errors : List Err
  warnings : List Warn
  lint_error : Option (List Char)

/-- Model of the TrackArtifact.slug property. -/
def Artifact.slugVal (a : Artifact) : Option (List Char) :=
  match a.metadata with
  | .dict kvs =>
    match kvs.lookup (lc "slug") with
    | some (.str s) => some s
    | _ => Option.none
  | _ => Option.none

/-- The slug as _write_outputs tests it: Python truthiness, so a
present but empty slug string is treated like an absent slug. -/
def Artifact.slugTruthy (a : Artifact) : Option (List Char) :=
  match a.slugVal with
  | some s => if s.isEmpty then Option.none else some s
  | Option.none => Option.none

/-- Model of load_track (orchestrator.py). yaml is the YAML decoder
treated as an oracle (Except.error models a raised YAMLError), path the
file path and fileBytes the bytes of the file; reading the file applies
the universal-newlines translation of Python text mode. -/
def loadTrack (yaml : List Char → Except (List Char) Val)
    (path fileBytes : List Char) : Artifact :=
  let raw_text := universalNewlines fileBytes
  let split := splitFrontMatter raw_text
  let parsed : Val × List Err :=
    match split.1 with
    | Option.none => (Val.pynone, [Err.frontMatterRequired])
    | some mt =>
      match yaml mt with
      | .ok v => (v, [])
      | .error e => (Val.pynone, [Err.yamlParse e])
  let validated :=
    if parsed.2.isEmpty then validateMetadata parsed.1 else (parsed.2, [])
  let codeChecked := validatePatternCode (.str split.2)
  { path := path
    raw_content := raw_text
    metadata := parsed.1
    code := .str split.2
    errors := validated.1 ++ codeChecked.1
    warnings := validated.2 ++ codeChecked.2
    lint_error := Option.none }

/-- The payload of an output file write; the JSON and Markdown bodies
are kept symbolic because no claim depends on their byte encodings,
while the raw payload carries the exact text written. -/
inductive FilePayload
  | jsonAggregate (tracks : List Artifact)
  | jsonTrack (a : Artifact)
  | mdDoc (a : Artifact)
  | rawText (content : List Char)

/-- The externally observable effects of a compilation run, in order:
the external lint pass starting, an output file being written, and the
structured summary report being appended to the log sink. -/
inductive Event
  | lintStarted
  | wroteFile (name : List Char) (payload : FilePayload)
  | reportEmitted (success : Bool)

/-- Model of the exceptions that can propagate out of the pipeline. -/
inductive PErr
  | valueError
deriving DecidableEq, Repr

def SUPPORTED_FORMATS : List (List Char) := [lc "json", lc "md", lc "raw"]

/-- Model of _write_outputs (orchestrator.py): Except.error models the
raised ValueError for an unsupported format, which the source raises
before creating the output directory or writing anything; on success
the events list the files in the order they are written. -/
def writeOutputs (artifacts : List Artifact) (formats : List (List Char)) :
    Except PErr (List Event) :=
  let fmts := formats.map pyLower
  let unknown := fmts.filter fun f => !SUPPORTED_FORMATS.contains f
  if !unknown.isEmpty then Except.error PErr.valueError
  else
    let jsonEvs :=
      if fmts.contains (lc "json") then
        Event.wroteFile (lc "tracks.json") (FilePayload.jsonAggregate artifacts) ::
          artifacts.filterMap fun a =>
            a.slugTruthy.map fun sl => Event.wroteFile (sl ++ lc ".json") (FilePayload.jsonTrack a)
      else []
    let mdEvs :=
      if fmts.contains (lc "md") then
        artifacts.filterMap fun a =>
          a.slugTruthy.map fun sl => Event.wroteFile (sl ++ lc ".md") (FilePayload.mdDoc a)
      else []
    let rawEvs :=
      if fmts.contains (lc "raw") then
        artifacts.filterMap fun a =>
          a.slugTruthy.map fun sl =>
            Event.wroteFile (sl ++ lc ".strudel") (FilePayload.rawText a.raw_content)
      else []
    Except.ok (jsonEvs ++ mdEvs ++ rawEvs)

/-- The outcome of the external lint pass as compile_project observes
it: a mapping from failing paths to messages, or one of the two
exception kinds that compile_project catches. -/
inductive LintOutcome
  | ok (failures : List (List Char × List Char))
  | fileNotFound (msg : List Char)
  | runtimeError (msg : List Char)

/-- The CompilationSettings fields the core control flow depends on. -/
structure Settings where
  formats : List (List Char)
  check_only : Bool

/-- Model of compile_project (orchestrator.py) from the discovery
result on: tracks are the discovered (path, file bytes) pairs in sorted
order, yaml the YAML decoder oracle, lint the outcome the external lint
collaborator would produce (consulted only when the structural gate
passes, as in the source). Returns the Python outcome, where
Except.error models an exception propagating uncaught to the caller,
together with the observable events in order. The source appends the
lint failure messages to the failing artifacts before reporting; the
report payload is not modelled beyond its success flag, so that
mutation is not visible here. Log lines and the log file itself are
not modelled; the report append is. -/
def compileProject (yaml : List Char → Except (List Char) Val)
    (tracks : List (List Char × List Char)) (lint : LintOutcome) (st : Settings) :
    Except PErr Nat × List Event :=
  let artifacts := tracks.map fun pc => loadTrack yaml pc.1 pc.2
  let fatal := artifacts.filter fun a => !a.errors.isEmpty
  if !fatal.isEmpty then (Except.ok 1, [Event.reportEmitted false])
  else
    match lint with
    | .fileNotFound _ => (Except.ok 1, [Event.lintStarted, Event.reportEmitted false])
    | .runtimeError _ => (Except.ok 1, [Event.lintStarted, Event.reportEmitted false])
    | .ok failures =>
      if !failures.isEmpty then (Except.ok 1, [Event.lintStarted, Event.reportEmitted false])
      else if !st.check_only then
        match writeOutputs artifacts st.formats with
        | Except.error e => (Except.error e, [Event.lintStarted])
        | Except.ok wevs =>
          (Except.ok 0, Event.lintStarted :: wevs ++ [Event.reportEmitted true])
      else (Except.ok 0, [Event.lintStarted, Event.reportEmitted true])

def isReport : Event → Bool
  | .reportEmitted _ => true
  | _ => false

def isWrite : Event → Bool
  | .wroteFile _ _ => true
  | _ => false

def isLint : Event → Bool
  | .lintStarted => true
  | _ => false

theorem findFromAux_some_of_starts (pat s : List Char) (i : Nat)
    (h : pat.isPrefixOf s = true) : findFromAux pat s i = some i := by
  cases s <;> simp [findFromAux, h]

theorem findFromAux_none_not_starts (pat s : List Char) (i : Nat)
    (h : findFromAux pat s i = Option.none) : pat.isPrefixOf s = false := by
  cases hp : pat.isPrefixOf s
  · rfl
  · rw [findFromAux_some_of_starts pat s i hp] at h
    exact absurd h (by simp)

/-- If a string has no occurrence of pat at or after a position, it has
no occurrence of c :: pat there either, because any occurrence of the
longer pattern contains one of the shorter pattern one position later. -/
theorem findFromAux_cons_none (c : Char) (pat : List Char) :
    ∀ (s : List Char) (i : Nat), findFromAux pat s i = Option.none →
      findFromAux (c :: pat) s i = Option.none := by
  intro s
  induction s with
  | nil =>
    intro i _
    simp [findFromAux, List.isPrefixOf]
  | cons b t ih =>
    intro i h
    simp only [findFromAux] at h ⊢
    have hb : pat.isPrefixOf (b :: t) = false := findFromAux_none_not_starts pat (b :: t) i h
    rw [hb] at h
    simp only [Bool.false_eq_true, if_false] at h
    have hcons : (c :: pat).isPrefixOf (b :: t) = false := by
      cases hx : (c :: pat).isPrefixOf (b :: t)
      · rfl
      · simp only [List.isPrefixOf, Bool.and_eq_true, beq_iff_eq] at hx
        rw [findFromAux_some_of_starts pat t (i + 1) hx.2] at h
        exact absurd h (by simp)
    rw [hcons]
    simp only [Bool.false_eq_true, if_false]
    exact ih (i + 1) h

theorem findFrom_crlf_none (s : List Char)
    (h : findFrom (lc "\n---") s 3 = Option.none) :
    findFrom (lc "\r\n---") s 3 = Option.none := by
  have he : lc "\r\n---" = '\r' :: lc "\n---" := rfl
  unfold findFrom at h ⊢
  rw [he]
  exact findFromAux_cons_none '\r' (lc "\n---") (s.drop 3) 3 h

/-- C9: the CRLF fallback branch of the front-matter splitter is
unreachable: whenever the LF-prefixed closing delimiter is not found
from position 3 on, the CRLF-prefixed one is not found either, so
_split_front_matter is extensionally equal to the simplified splitter
that searches only for the LF-prefixed form. -/
theorem c9_crlf_fallback_unreachable :
    (∀ s : List Char, findFrom (lc "\n---") s 3 = Option.none →
      findFrom (lc "\r\n---") s 3 = Option.none) ∧
    (∀ s : List Char, splitFrontMatter s = splitFrontMatterLFOnly s) := by
  refine ⟨findFrom_crlf_none, fun s => ?_⟩
  unfold splitFrontMatter splitFrontMatterLFOnly
  cases hp : (lc "---").isPrefixOf s
  · simp [hp]
  · simp only [hp, Bool.not_true, Bool.false_eq_true, if_false]
    cases hfind : findFrom (lc "\n---") s 3 with
    | some e => rfl
    | none => rw [findFrom_crlf_none s hfind]

theorem c9_crlf_fallback_unreachable_witness :
    findFrom (lc "\r\n---") (lc "ab") 3 = Option.none ∧
    splitFrontMatter (lc "---\r\n x") = splitFrontMatterLFOnly (lc "---\r\n x") :=
  ⟨c9_crlf_fallback_unreachable.1 (lc "ab") (by decide),
   c9_crlf_fallback_unreachable.2 (lc "---\r\n x")⟩

theorem isLowerAlnum_ne_newline {c : Char} (h : isLowerAlnum c = true) : c ≠ '\n' :=
  fun hc => absurd h (by subst hc; decide)

/-- The Python dollar anchor against the strict one: the tail matcher
with the trailing-newline allowance accepts exactly the strict matches
plus the strict matches extended with one final newline. -/
theorem slugTail_newline (t : List Char) : ∀ seen : Bool,
    (slugTail true seen t = true ↔
      (slugTail false seen t = true ∨
        ∃ u, t = u ++ ['\n'] ∧ slugTail false seen u = true)) := by
  induction t with
  | nil =>
    intro seen
    constructor
    · intro h
      exact Or.inl h
    · rintro (h | ⟨u, hu, _⟩)
      · exact h
      · exact absurd hu (by simp)
  | cons c t ih =>
    intro seen
    by_cases h1 : isLowerAlnum c = true
    · simp only [slugTail, h1, if_true]
      rw [ih true]
      constructor
      · rintro (h | ⟨u, hu, hm⟩)
        · exact Or.inl h
        · exact Or.inr ⟨c :: u, by rw [hu, List.cons_append],
            by simpa only [slugTail, h1, if_true] using hm⟩
      · rintro (h | ⟨u, hu, hm⟩)
        · exact Or.inl h
        · cases u with
          | nil =>
            simp only [List.nil_append, List.cons.injEq] at hu
            exact absurd hu.1 (isLowerAlnum_ne_newline h1)
          | cons c2 u2 =>
            rw [List.cons_append, List.cons.injEq] at hu
            obtain ⟨hc2, ht⟩ := hu
            subst hc2
            simp only [slugTail, h1, if_true] at hm
            exact Or.inr ⟨u2, ht, hm⟩
    · by_cases h2 : c = '-'
      · subst h2
        simp only [slugTail, h1, Bool.false_eq_true, if_false, beq_self_eq_true, if_true,
          Bool.and_eq_true]
        constructor
        · rintro ⟨hs, h⟩
          rcases (ih false).1 h with h' | ⟨u, hu, hm⟩
          · exact Or.inl ⟨hs, h'⟩
          · refine Or.inr ⟨'-' :: u, by rw [hu, List.cons_append], ?_⟩
            simp only [slugTail, h1, Bool.false_eq_true, if_false, beq_self_eq_true, if_true,
              Bool.and_eq_true]
            exact ⟨hs, hm⟩
        · rintro (⟨hs, h⟩ | ⟨u, hu, hm⟩)
          · exact ⟨hs, (ih false).2 (Or.inl h)⟩
          · cases u with
            | nil =>
              simp only [List.nil_append, List.cons.injEq] at hu
              exact absurd hu.1 (by decide)
            | cons c2 u2 =>
              rw [List.cons_append, List.cons.injEq] at hu
              obtain ⟨hc2, ht⟩ := hu
              rw [← hc2] at hm
              simp only [slugTail, h1, Bool.false_eq_true, if_false, beq_self_eq_true, if_true,
                Bool.and_eq_true] at hm
              exact ⟨hm.1, (ih false).2 (Or.inr ⟨u2, ht, hm.2⟩)⟩
      · have h2' : (c == '-') = false := by
          cases hx : c == '-'
          · rfl
          · exact absurd (by simpa using hx) h2
        simp only [slugTail, h1, Bool.false_eq_true, if_false, h2',
          Bool.false_and, Bool.and_eq_true, Bool.true_and]
        constructor
        · rintro ⟨⟨hs, hc⟩, hte⟩
          refine Or.inr ⟨[], ?_, hs⟩
          have : t = [] := by simpa [List.isEmpty_iff] using hte
          rw [this]
          simpa using (by simpa using hc : c = '\n')
        · rintro (h | ⟨u, hu, hm⟩)
          · exact absurd h (by simp)
          · cases u with
            | nil =>
              simp only [List.nil_append, List.cons.injEq] at hu
              refine ⟨⟨by simpa using hm, by simpa using hu.1⟩, by simp [hu.2]⟩
            | cons c2 u2 =>
              rw [List.cons_append, List.cons.injEq] at hu
              obtain ⟨hc2, _⟩ := hu
              rw [← hc2] at hm
              simp only [slugTail, h1, Bool.false_eq_true, if_false, h2', Bool.false_and] at hm

/-- slugMatch in terms of the strictly anchored matcher: a string
matches SLUG_PATTERN under Python re.match exactly when it or the
string minus a single trailing newline matches the strictly anchored
pattern. -/
theorem slugMatch_iff_strict (s : List Char) :
    slugMatch s = true ↔
      (slugMatchStrict s = true ∨
        ∃ u, s = u ++ ['\n'] ∧ slugMatchStrict u = true) := by
  cases s with
  | nil =>
    simp only [slugMatch, slugMatchStrict]
    constructor
    · intro h
      exact absurd h (by simp)
    · rintro (h | ⟨u, hu, _⟩)
      · exact absurd h (by simp)
      · exact absurd hu (by simp)
  | cons c t =>
    by_cases h1 : isLowerAlnum c = true
    · simp only [slugMatch, slugMatchStrict, h1, Bool.true_and]
      rw [slugTail_newline t true]
      constructor
      · rintro (h | ⟨u, hu, hm⟩)
        · exact Or.inl h
        · refine Or.inr ⟨c :: u, by rw [hu, List.cons_append], ?_⟩
          simp only [slugMatchStrict, h1, Bool.true_and]
          exact hm
      · rintro (h | ⟨u, hu, hm⟩)
        · exact Or.inl h
        · cases u with
          | nil => exact absurd hm (by simp [slugMatchStrict])
          | cons c2 u2 =>
            rw [List.cons_append, List.cons.injEq] at hu
            obtain ⟨hc2, ht⟩ := hu
            rw [← hc2] at hm
            simp only [slugMatchStrict, h1, Bool.true_and] at hm
            exact Or.inr ⟨u2, ht, hm⟩
    · have h1' : isLowerAlnum c = false := by
        cases hx : isLowerAlnum c
        · rfl
        · exact absurd hx h1
      simp only [slugMatch, slugMatchStrict, h1', Bool.false_and]
      constructor
      · intro h
        exact absurd h (by simp)
      · rintro (h | ⟨u, hu, hm⟩)
        · exact absurd h (by simp)
        · cases u with
          | nil => exact absurd hm (by simp [slugMatchStrict])
          | cons c2 u2 =>
            rw [List.cons_append, List.cons.injEq] at hu
            rw [← hu.1] at hm
            simp only [slugMatchStrict, h1', Bool.false_and] at hm
            exact absurd hm (by simp)

theorem titleErrs_shape (v : Val) : ∀ e ∈ titleErrs v, e = Err.titleRequired := by
  intro e he
  cases v <;> simp [titleErrs] at he
  all_goals first | exact he | exact he.2

theorem tempoChecks_err_shape (v : Val) :
    ∀ e ∈ (tempoChecks v).1,
      e = Err.tempoRequired ∨ e = Err.tempoPositive ∨ e = Err.tempoNumeric := by
  intro e he
  unfold tempoChecks at he
  repeat' split at he
  all_goals simp_all

theorem tempoChecks_warn_shape (v : Val) :
    ∀ w ∈ (tempoChecks v).2, w = Warn.tempoInteger := by
  intro w hw
  unfold tempoChecks at hw
  repeat' split at hw
  all_goals simp_all

theorem moodWarns_shape (v : Val) : ∀ w ∈ moodWarns v, w = Warn.moodRecommended := by
  intro w hw
  cases v <;> simp [moodWarns] at hw
  all_goals first | exact hw | exact hw.2

theorem summaryWarns_shape (v : Val) : ∀ w ∈ summaryWarns v, w = Warn.summaryRecommended := by
  intro w hw
  cases v <;> simp [summaryWarns] at hw
  all_goals first | exact hw | exact hw.2

theorem tagsChecks_err_shape (v : Val) :
    ∀ e ∈ (tagsChecks v).1, ∃ i, e = Err.tagNonEmpty i := by
  intro e he
  unfold tagsChecks at he
  split at he
  case _ ts =>
    split at he
    · simp at he
    · simp only [List.mem_filterMap] at he
      obtain ⟨p, _, hp⟩ := he
      rcases p with ⟨i, w⟩
      cases w <;> simp only at hp <;> try exact ⟨i + 1, by simpa using hp.symm⟩
      case str s =>
        split at hp
        · exact ⟨i + 1, by simpa using hp.symm⟩
        · simp at hp
  case _ => simp at he

theorem tagsChecks_warn_shape (v : Val) :
    ∀ w ∈ (tagsChecks v).2,
      w = Warn.tagsRecommended ∨ w = Warn.tagsAtLeastTwo ∨ ∃ t, w = Warn.tagLowercase t := by
  intro w hw
  unfold tagsChecks at hw
  split at hw
  case _ ts =>
    split at hw
    · simp at hw
      simp [hw]
    · simp only [List.mem_append, List.mem_filterMap] at hw
      rcases hw with hw | ⟨p, _, hp⟩
      · revert hw
        split <;> intro hw <;> simp at hw <;> simp [hw]
      · rcases p with ⟨i, x⟩
        cases x <;> simp at hp
        exact Or.inr (Or.inr ⟨_, hp.2.symm⟩)
  case _ =>
    simp at hw
    simp [hw]

theorem resourcesChecks_err_shape (o : Option Val) :
    ∀ e ∈ (resourcesChecks o).1, e = Err.resourcesList := by
  intro e he
  unfold resourcesChecks at he
  split at he <;> simp at he <;> exact he

theorem resourcesChecks_warn_shape (o : Option Val) :
    ∀ w ∈ (resourcesChecks o).2, ∃ i, w = Warn.resourceNonEmpty i := by
  intro w hw
  unfold resourcesChecks at hw
  split at hw
  · simp at hw
  · simp at hw
  · dsimp only at hw
    simp only [List.mem_filterMap] at hw
    obtain ⟨p, _, hp⟩ := hw
    rcases p with ⟨i, x⟩
    cases x <;> simp at hp
    all_goals first
      | exact ⟨i + 1, hp.symm⟩
      | exact ⟨i + 1, hp.2.symm⟩
  · simp at hw

theorem validateMetadata_err_mem (kvs : List (List Char × Val)) (e : Err) :
    e ∈ (validateMetadata (Val.dict kvs)).1 ↔
      e ∈ slugErrs (getVal kvs "slug") ∨ e ∈ titleErrs (getVal kvs "title") ∨
      e ∈ (tempoChecks (getVal kvs "tempo")).1 ∨
      e ∈ (tagsChecks (getVal kvs "tags")).1 ∨
      e ∈ (resourcesChecks (kvs.lookup (lc "resources"))).1 := by
  simp [validateMetadata, List.mem_append, or_assoc]

theorem validateMetadata_warn_mem (kvs : List (List Char × Val)) (w : Warn) :
    w ∈ (validateMetadata (Val.dict kvs)).2 ↔
      w ∈ (tempoChecks (getVal kvs "tempo")).2 ∨ w ∈ moodWarns (getVal kvs "mood") ∨
      w ∈ (tagsChecks (getVal kvs "tags")).2 ∨ w ∈ summaryWarns (getVal kvs "summary") ∨
      w ∈ (resourcesChecks (kvs.lookup (lc "resources"))).2 := by
  simp [validateMetadata, List.mem_append, or_assoc]

theorem slugErrs_str (s : List Char) :
    slugErrs (Val.str s) =
      if s.isEmpty then [Err.slugRequired]
      else if slugMatch s then [] else [Err.slugFormat] := by
  unfold slugErrs pyTruthy
  cases hs : s.isEmpty <;> simp [hs]

/-- C5 counterexample: the slug value "abc" followed by a newline does
not match the kebab-case pattern anchored at the true end of the
string, yet validate_metadata produces no slug-format error for it
(Python dollar also matches just before one trailing newline): the
claim as stated is false for this string. -/
theorem c5_slug_regex_counterexample :
    slugMatchStrict (lc "abc\n") = false ∧
    Err.slugFormat ∉
      (validateMetadata (Val.dict [(lc "slug", Val.str (lc "abc\n"))])).1 := by
  constructor
  · decide
  · decide

/-- C5 (amended): for a string slug value, validate_metadata produces
the slug-format error exactly for the non-empty strings that match
neither the strictly anchored kebab-case pattern nor that pattern
followed by one trailing newline (Python dollar semantics); the empty
string instead produces the slug-required error, and a non-empty
matching string produces neither. -/
theorem c5_slug_regex_amended (kvs : List (List Char × Val)) (s : List Char)
    (h : kvs.lookup (lc "slug") = some (Val.str s)) :
    (Err.slugRequired ∈ (validateMetadata (Val.dict kvs)).1 ↔ s = []) ∧
    (Err.slugFormat ∈ (validateMetadata (Val.dict kvs)).1 ↔
      s ≠ [] ∧ ¬(slugMatchStrict s = true ∨
        ∃ u, s = u ++ ['\n'] ∧ slugMatchStrict u = true)) := by
  have hg : getVal kvs "slug" = Val.str s := by simp [getVal, h]
  have hslug : slugErrs (getVal kvs "slug") =
      if s.isEmpty then [Err.slugRequired]
      else if slugMatch s then [] else [Err.slugFormat] := by
    rw [hg, slugErrs_str]
  constructor
  · rw [validateMetadata_err_mem, hslug]
    constructor
    · rintro (hm | hm | hm | hm | hm)
      · by_cases hs : s.isEmpty
        · simpa using hs
        · rw [if_neg hs] at hm
          split at hm <;> simp at hm
      · exact absurd (titleErrs_shape _ _ hm) (by decide)
      · rcases tempoChecks_err_shape _ _ hm with h1 | h1 | h1 <;> exact absurd h1 (by decide)
      · obtain ⟨i, hi⟩ := tagsChecks_err_shape _ _ hm
        exact absurd hi (by simp)
      · exact absurd (resourcesChecks_err_shape _ _ hm) (by decide)
    · intro hs
      subst hs
      simp
  · rw [validateMetadata_err_mem, hslug]
    constructor
    · rintro (hm | hm | hm | hm | hm)
      · by_cases hs : s.isEmpty
        · rw [if_pos hs] at hm
          simp at hm
        · rw [if_neg hs] at hm
          constructor
          · simpa using hs
          · rw [← slugMatch_iff_strict]
            intro hmatch
            rw [if_pos hmatch] at hm
            simp at hm
      · exact absurd (titleErrs_shape _ _ hm) (by decide)
      · rcases tempoChecks_err_shape _ _ hm with h1 | h1 | h1 <;> exact absurd h1 (by decide)
      · obtain ⟨i, hi⟩ := tagsChecks_err_shape _ _ hm
        exact absurd hi (by simp)
      · exact absurd (resourcesChecks_err_shape _ _ hm) (by decide)
    · rintro ⟨hne, hnm⟩
      rw [← slugMatch_iff_strict] at hnm
      left
      rw [if_neg (by simpa using hne), if_neg (by simpa using hnm)]
      simp

theorem c5_slug_regex_amended_witness :
    (Err.slugRequired ∈
        (validateMetadata (Val.dict [(lc "slug", Val.str (lc "abc\n"))])).1 ↔
      lc "abc\n" = []) ∧
    (Err.slugFormat ∈
        (validateMetadata (Val.dict [(lc "slug", Val.str (lc "abc\n"))])).1 ↔
      lc "abc\n" ≠ [] ∧ ¬(slugMatchStrict (lc "abc\n") = true ∨
        ∃ u, lc "abc\n" = u ++ ['\n'] ∧ slugMatchStrict u = true)) :=
  c5_slug_regex_amended [(lc "slug", Val.str (lc "abc\n"))] (lc "abc\n") rfl

theorem universalNewlines_cons_ne (c : Char) (t : List Char) (hc : c ≠ '\r') :
    universalNewlines (c :: t) = c :: universalNewlines t := by
  rw [universalNewlines.eq_def]
  split
  · rename_i heq
    exact absurd heq (by simp)
  · rename_i heq
    rw [List.cons.injEq] at heq
    exact absurd heq.1 hc
  · rename_i heq
    rw [List.cons.injEq] at heq
    exact absurd heq.1 hc
  · rename_i heq
    rw [List.cons.injEq] at heq
    rw [heq.1, heq.2]

theorem universalNewlines_no_cr (s : List Char) :
    '\r' ∉ s → universalNewlines s = s := by
  induction s with
  | nil => intro _; rfl
  | cons c t ih =>
    intro h
    rw [List.mem_cons, not_or] at h
    rw [universalNewlines_cons_ne c t (Ne.symm h.1), ih h.2]

theorem universalNewlines_cr_not_lf (c2 : Char) (t2 : List Char) (hc2 : c2 ≠ '\n') :
    universalNewlines ('\r' :: c2 :: t2) = '\n' :: universalNewlines (c2 :: t2) := by
  rw [universalNewlines.eq_def]
  split
  · rename_i heq
    exact absurd heq (by simp)
  · rename_i heq
    rw [List.cons.injEq, List.cons.injEq] at heq
    exact absurd heq.2.1 hc2
  · rename_i heq
    rw [List.cons.injEq] at heq
    rw [heq.2]
  · rename_i hside heq
    rw [List.cons.injEq] at heq
    exact absurd heq.1.symm hside

/-- The translated text never contains a carriage return: every CR in
the input is replaced by LF. -/
theorem cr_not_mem_universalNewlines_aux :
    ∀ (n : Nat) (s : List Char), s.length ≤ n → '\r' ∉ universalNewlines s := by
  intro n
  induction n with
  | zero =>
    intro s hl
    cases s with
    | nil => simp [universalNewlines]
    | cons c t => simp at hl
  | succ n ih =>
    intro s hl
    cases s with
    | nil => simp [universalNewlines]
    | cons c t =>
      by_cases hc : c = '\r'
      · subst hc
        cases t with
        | nil =>
          show '\r' ∉ ['\n']
          decide
        | cons c2 t2 =>
          by_cases hc2 : c2 = '\n'
          · subst hc2
            show '\r' ∉ '\n' :: universalNewlines t2
            rw [List.mem_cons, not_or]
            refine ⟨by decide, ih t2 ?_⟩
            simp only [List.length_cons] at hl
            omega
          · rw [universalNewlines_cr_not_lf c2 t2 hc2]
            rw [List.mem_cons, not_or]
            refine ⟨by decide, ih (c2 :: t2) ?_⟩
            simp only [List.length_cons] at hl ⊢
            omega
      · rw [universalNewlines_cons_ne c t hc]
        rw [List.mem_cons, not_or]
        refine ⟨fun h => hc h.symm, ih t ?_⟩
        simp only [List.length_cons] at hl
        omega

theorem cr_not_mem_universalNewlines (s : List Char) : '\r' ∉ universalNewlines s :=
  cr_not_mem_universalNewlines_aux s.length s le_rfl

/-- The translation is the identity exactly on the inputs that contain
no carriage return. -/
theorem universalNewlines_eq_iff (s : List Char) :
    '\r' ∉ s ↔ universalNewlines s = s := by
  constructor
  · exact universalNewlines_no_cr s
  · intro h hmem
    rw [← h] at hmem
    exact cr_not_mem_universalNewlines s hmem

theorem writeOutputs_raw_single (a : Artifact) :
    writeOutputs [a] [lc "raw"] =
      Except.ok
        (match a.slugTruthy with
         | some sl =>
           [Event.wroteFile (sl ++ lc ".strudel") (FilePayload.rawText a.raw_content)]
         | Option.none => []) := by
  show Except.ok ([a].filterMap fun x =>
      x.slugTruthy.map fun sl =>
        Event.wroteFile (sl ++ lc ".strudel") (FilePayload.rawText x.raw_content)) = _
  cases h : a.slugTruthy <;> simp [List.filterMap_cons, h]

/-- C2 counterexample: a source file whose body ends in CR LF: Python
text-mode reading normalizes the line ending to LF, so the raw artifact
written back differs from the original file content byte-for-byte. -/
def yamlC2 : List Char → Except (List Char) Val := fun mt =>
  if mt == lc "slug: a" then Except.ok (Val.dict [(lc "slug", Val.str (lc "a"))])
  else Except.ok Val.pynone

theorem c2_raw_roundtrip_counterexample :
    writeOutputs [loadTrack yamlC2 (lc "p") (lc "---\nslug: a\n---\nx\r\n")] [lc "raw"] =
      Except.ok [Event.wroteFile (lc "a.strudel")
        (FilePayload.rawText (lc "---\nslug: a\n---\nx\n"))] ∧
    lc "---\nslug: a\n---\nx\n" ≠ lc "---\nslug: a\n---\nx\r\n" := by
  constructor
  · rfl
  · decide

/-- C2 (amended): loading a track and writing it back in raw format
writes, for the artifact with a truthy slug, exactly the universal-
newlines normalization of the original file content (and no file at all
when there is no truthy slug); the output equals the original content
byte-for-byte exactly when the original contains no carriage return. -/
theorem c2_raw_roundtrip_amended (yaml : List Char → Except (List Char) Val)
    (path fileBytes : List Char) :
    (writeOutputs [loadTrack yaml path fileBytes] [lc "raw"] =
      Except.ok
        (match (loadTrack yaml path fileBytes).slugTruthy with
         | some sl =>
           [Event.wroteFile (sl ++ lc ".strudel")
             (FilePayload.rawText (universalNewlines fileBytes))]
         | Option.none => [])) ∧
    ('\r' ∉ fileBytes ↔ universalNewlines fileBytes = fileBytes) := by
  refine ⟨?_, universalNewlines_eq_iff fileBytes⟩
  have h := writeOutputs_raw_single (loadTrack yaml path fileBytes)
  have hraw : (loadTrack yaml path fileBytes).raw_content = universalNewlines fileBytes := rfl
  rw [hraw] at h
  exact h

theorem c2_raw_roundtrip_amended_witness :
    ('\r' ∉ lc "abc") ∧ universalNewlines (lc "abc") = lc "abc" :=
  ⟨by decide, (c2_raw_roundtrip_amended yamlC2 (lc "p") (lc "abc")).2.mp (by decide)⟩

def yamlTriv : List Char → Except (List Char) Val := fun _ => Except.ok Val.pynone

/-- C1: if any loaded artifact carries a non-empty errors list after
the LOAD stage, compile_project returns 1 and its only observable
effect is the single failure report: the external lint pass is never
started and no output file is written. -/
theorem c1_structural_gate_aborts (yaml : List Char → Except (List Char) Val)
    (tracks : List (List Char × List Char)) (lint : LintOutcome) (st : Settings)
    (h : ∃ pc ∈ tracks, (loadTrack yaml pc.1 pc.2).errors ≠ []) :
    compileProject yaml tracks lint st = (Except.ok 1, [Event.reportEmitted false]) := by
  obtain ⟨pc, hmem, herr⟩ := h
  have hmem2 : loadTrack yaml pc.1 pc.2 ∈
      (tracks.map fun pc => loadTrack yaml pc.1 pc.2).filter fun a => !a.errors.isEmpty := by
    rw [List.mem_filter]
    exact ⟨List.mem_map_of_mem _ hmem, by simp [List.isEmpty_iff, herr]⟩
  have hfatal : ((tracks.map fun pc => loadTrack yaml pc.1 pc.2).filter
      fun a => !a.errors.isEmpty).isEmpty = false := by
    cases hF : ((tracks.map fun pc => loadTrack yaml pc.1 pc.2).filter
        fun a => !a.errors.isEmpty).isEmpty
    · rfl
    · rw [List.isEmpty_iff] at hF
      rw [hF] at hmem2
      exact absurd hmem2 (by simp)
  simp [compileProject, hfatal]

theorem c1_structural_gate_aborts_witness :
    (∃ pc ∈ [((lc "p"), (lc "no front matter"))],
      (loadTrack yamlTriv pc.1 pc.2).errors ≠ []) ∧
    compileProject yamlTriv [((lc "p"), (lc "no front matter"))]
        (LintOutcome.ok []) ⟨[lc "json"], true⟩ =
      (Except.ok 1, [Event.reportEmitted false]) :=
  ⟨by decide, c1_structural_gate_aborts _ _ _ _ (by decide)⟩

theorem isWrite_of_mem_slugWrites (l : List Artifact)
    (g : Artifact → List Char → FilePayload) (suffix : List Char) (e : Event)
    (he : e ∈ l.filterMap fun a => a.slugTruthy.map fun sl =>
      Event.wroteFile (sl ++ suffix) (g a sl)) : isWrite e = true := by
  simp only [List.mem_filterMap] at he
  obtain ⟨a, _, ha⟩ := he
  cases hs : a.slugTruthy <;> rw [hs] at ha <;> simp at ha
  rw [← ha]
  rfl

theorem writeOutputs_ok_writes (artifacts : List Artifact) (formats : List (List Char))
    (wevs : List Event) (h : writeOutputs artifacts formats = Except.ok wevs) :
    ∀ e ∈ wevs, isWrite e = true := by
  simp only [writeOutputs] at h
  split at h
  · exact absurd h (by simp)
  · simp only [Except.ok.injEq] at h
    subst h
    intro e he
    simp only [List.mem_append] at he
    rcases he with (he | he) | he
    · revert he
      split <;> intro he
      · rcases List.mem_cons.mp he with rfl | he
        · rfl
        · exact isWrite_of_mem_slugWrites _ _ _ _ he
      · simp at he
    · revert he
      split <;> intro he
      · exact isWrite_of_mem_slugWrites _ _ _ _ he
      · simp at he
    · revert he
      split <;> intro he
      · exact isWrite_of_mem_slugWrites _ _ _ _ he
      · simp at he

theorem isReport_eq_false_of_isWrite (e : Event) (h : isWrite e = true) :
    isReport e = false := by
  cases e <;> simp [isWrite, isReport] at h ⊢

/-- C3 (amended): the structured summary report is appended exactly
once on every run on which compile_project returns an exit code (any
gate abort and success alike), and zero times on a run on which the
artifact writer raises the unsupported-format ValueError, because that
exception propagates past the report step (only the log flush is in the
guaranteed finalizer). -/
theorem c3_report_once_amended (yaml : List Char → Except (List Char) Val)
    (tracks : List (List Char × List Char)) (lint : LintOutcome) (st : Settings) :
    (compileProject yaml tracks lint st).2.countP isReport =
      match (compileProject yaml tracks lint st).1 with
      | Except.ok _ => 1
      | Except.error _ => 0 := by
  unfold compileProject
  by_cases hf : ((tracks.map fun pc => loadTrack yaml pc.1 pc.2).filter
      fun a => !a.errors.isEmpty).isEmpty
  · simp only [hf, Bool.not_true, Bool.false_eq_true, if_false]
    cases lint with
    | fileNotFound m => simp [List.countP_cons, isReport]
    | runtimeError m => simp [List.countP_cons, isReport]
    | ok failures =>
      by_cases hfl : failures.isEmpty
      · simp only [hfl, Bool.not_true, Bool.false_eq_true, if_false]
        by_cases hco : st.check_only
        · simp [hco, List.countP_cons, isReport]
        · simp only [hco, Bool.not_false, if_true]
          cases hw : writeOutputs (tracks.map fun pc => loadTrack yaml pc.1 pc.2) st.formats with
          | error e => simp [List.countP_cons, isReport]
          | ok wevs =>
            have hz : wevs.countP isReport = 0 := by
              rw [List.countP_eq_zero]
              intro e he
              simp [isReport_eq_false_of_isWrite e (writeOutputs_ok_writes _ _ _ hw e he)]
            simp [List.countP_cons, List.countP_append, isReport, hz]
      · simp [hfl, List.countP_cons, isReport]
  · simp [hf, List.countP_cons, isReport]

/-- C3 counterexample: a run with all gates passing and an unsupported
output format appends the summary report zero times, not once: the
ValueError raised by the writer propagates before the report step. -/
theorem c3_report_once_counterexample :
    (compileProject yamlTriv [] (LintOutcome.ok []) ⟨[lc "xml"], false⟩).1 =
      Except.error PErr.valueError ∧
    (compileProject yamlTriv [] (LintOutcome.ok []) ⟨[lc "xml"], false⟩).2.countP isReport
      = 0 := ⟨rfl, rfl⟩

/-- C4 counterexample: with a formats set containing an unsupported
entry, check_only false and all gates passing, compile_project does not
return the exit code 1: the ValueError escapes to the caller. -/
theorem c4_unsupported_format_counterexample :
    (compileProject yamlTriv [] (LintOutcome.ok []) ⟨[lc "xml"], false⟩).1 ≠
      Except.ok 1 ∧
    (compileProject yamlTriv [] (LintOutcome.ok []) ⟨[lc "xml"], false⟩).1 =
      Except.error PErr.valueError := by
  refine ⟨fun h => ?_, rfl⟩
  rw [show (compileProject yamlTriv [] (LintOutcome.ok []) ⟨[lc "xml"], false⟩).1 =
      Except.error PErr.valueError from rfl] at h
  exact Except.noConfusion h

/-- C4 (amended): on a run with check_only false, every loaded artifact
error-free, a clean lint pass and a formats set containing a value
outside the supported set, compile_project raises ValueError (the
exception propagates to the caller) instead of returning 1; nothing is
written and no report is emitted. -/
theorem c4_unsupported_format_amended (yaml : List Char → Except (List Char) Val)
    (tracks : List (List Char × List Char)) (st : Settings)
    (hco : st.check_only = false)
    (herr : ∀ pc ∈ tracks, (loadTrack yaml pc.1 pc.2).errors = [])
    (hunk : ((st.formats.map pyLower).filter fun f => !SUPPORTED_FORMATS.contains f) ≠ []) :
    compileProject yaml tracks (LintOutcome.ok []) st =
      (Except.error PErr.valueError, [Event.lintStarted]) := by
  have hfatal : ((tracks.map fun pc => loadTrack yaml pc.1 pc.2).filter
      fun a => !a.errors.isEmpty) = [] := by
    rw [List.filter_eq_nil_iff]
    intro a ha
    obtain ⟨pc, hpc, rfl⟩ := List.mem_map.mp ha
    simp [herr pc hpc]
  have hw : writeOutputs (tracks.map fun pc => loadTrack yaml pc.1 pc.2) st.formats =
      Except.error PErr.valueError := by
    unfold writeOutputs
    rw [if_pos (by simpa [List.isEmpty_iff] using hunk)]
  simp [compileProject, hfatal, hco, hw]

theorem c4_unsupported_format_amended_witness :
    ((⟨[lc "xml"], false⟩ : Settings).check_only = false) ∧
    compileProject yamlTriv [] (LintOutcome.ok []) ⟨[lc "xml"], false⟩ =
      (Except.error PErr.valueError, [Event.lintStarted]) :=
  ⟨rfl, c4_unsupported_format_amended yamlTriv [] ⟨[lc "xml"], false⟩ rfl
    (by intro pc hpc; exact absurd hpc (by simp)) (by decide)⟩

theorem pow_ten_pos (n : Nat) : (0 : Rat) < (10 : Rat) ^ n := by positivity

theorem decGtOne_iff (d : Dec) : decGtOne d = true ↔ (1 : Rat) < decVal d := by
  rw [decGtOne, decide_eq_true_eq, decVal, one_lt_div (pow_ten_pos d.scale)]
  constructor
  · intro h
    exact_mod_cast h
  · intro h
    exact_mod_cast h

theorem decLeZero_iff (d : Dec) : decLeZero d = true ↔ decVal d ≤ 0 := by
  rw [decLeZero, decide_eq_true_eq, decVal, div_nonpos_iff]
  constructor
  · intro h
    exact Or.inr ⟨by exact_mod_cast h, le_of_lt (pow_ten_pos d.scale)⟩
  · rintro (⟨_, h2⟩ | ⟨h1, _⟩)
    · exact absurd h2 (not_le.mpr (pow_ten_pos d.scale))
    · exact_mod_cast h1

theorem decIsInt_iff (d : Dec) : decIsInt d = true ↔ ∃ n : Int, decVal d = (n : Rat) := by
  rw [decIsInt, decide_eq_true_eq]
  constructor
  · intro h
    obtain ⟨k, hk⟩ := Int.dvd_of_emod_eq_zero h
    refine ⟨k, ?_⟩
    rw [decVal, hk]
    push_cast
    exact mul_div_cancel_left₀ _ (ne_of_gt (pow_ten_pos d.scale))
  · rintro ⟨n, hn⟩
    rw [decVal, div_eq_iff (ne_of_gt (pow_ten_pos d.scale))] at hn
    have hm : d.mant = n * (10 : Int) ^ d.scale := by exact_mod_cast hn
    rw [hm]
    exact Int.mul_emod_left n _

theorem slugErrs_shape (v : Val) :
    ∀ e ∈ slugErrs v, e = Err.slugRequired ∨ e = Err.slugFormat := by
  intro e he
  unfold slugErrs at he
  repeat' split at he
  all_goals simp_all

/-- The outcome of Python float(x): a finite value (decimal literals
modelled exactly, as everywhere in this development), the special
values nan and signed infinity, a TypeError or ValueError (caught by
the except clause at the call site in validate_metadata), or an
OverflowError (which that except clause does not catch, so it leaves
validate_metadata). The binary rounding of finite literals, and their
saturation to infinity beyond the double range, are not modelled. -/
inductive PyFloatRes
  | finite (d : Dec)
  | nan
  | inf (neg : Bool)
  | valueError
  | overflowError
deriving DecidableEq, Repr

/-- Tail of a digit group that may contain underscores: seen is true
when the previous character was a digit (the group may stop or take an
underscore), false right after an underscore (a digit is mandatory). -/
def digitRunAux : Bool → List Char → Bool
  | seen, [] => seen
  | seen, c :: t =>
    if c.isDigit then digitRunAux true t
    else if c == '_' then seen && digitRunAux false t
    else false

/-- A run of digits and underscores is a valid digit group (PEP 515)
when it is nonempty, starts and ends with a digit, and every underscore
sits between two digits. -/
def digitRunOk (r : List Char) : Bool :=
  match r with
  | c :: t => c.isDigit && digitRunAux true t
  | [] => false

/-- Model of Python float(s) on a string with the full outcome shape:
optional sign, then the case-insensitive special forms nan, inf and
infinity, or a decimal literal with optional fraction and exponent
whose digit groups may contain single underscores between digits
(PEP 515); anything else raises ValueError. Finite values are kept
exact (see PyFloatRes); digits are ASCII, as everywhere here. -/
def pyFloatOfStringR (s : List Char) : PyFloatRes :=
  let t := pyStrip s
  let neg := t.head? == some '-'
  let t1 := if t.head? == some '-' || t.head? == some '+' then t.tail else t
  let low := pyLower t1
  if low == lc "nan" then PyFloatRes.nan
  else if low == lc "inf" || low == lc "infinity" then PyFloatRes.inf neg
  else
    let m1 := t1.takeWhile fun c => c.isDigit || c == '_'
    let r1 := t1.dropWhile fun c => c.isDigit || c == '_'
    if !m1.isEmpty && !digitRunOk m1 then PyFloatRes.valueError
    else
      let d1 := m1.filter Char.isDigit
      let hasDot := r1.head? == some '.'
      let afterDot := if hasDot then r1.tail else r1
      let m2 := if hasDot then afterDot.takeWhile (fun c => c.isDigit || c == '_') else []
      let r2 := if hasDot then afterDot.dropWhile (fun c => c.isDigit || c == '_') else r1
      if hasDot && (!m2.isEmpty && !digitRunOk m2) then PyFloatRes.valueError
      else
        let d2 := m2.filter Char.isDigit
        if d1.isEmpty && d2.isEmpty then PyFloatRes.valueError
        else
          let sgn : Int := if neg then -1 else 1
          let base : Dec :=
            ⟨sgn * (natOfDigits d1 * 10 ^ d2.length + natOfDigits d2), d2.length⟩
          match r2 with
          | [] => PyFloatRes.finite base
          | e :: u =>
            if e == 'e' || e == 'E' then
              let eneg := u.head? == some '-'
              let u1 := if u.head? == some '-' || u.head? == some '+' then u.tail else u
              let m3 := u1.takeWhile fun c => c.isDigit || c == '_'
              let rest := u1.dropWhile fun c => c.isDigit || c == '_'
              if m3.isEmpty || !digitRunOk m3 || !rest.isEmpty then PyFloatRes.valueError
              else
                let ds := m3.filter Char.isDigit
                if eneg then PyFloatRes.finite ⟨base.mant, base.scale + natOfDigits ds⟩
                else PyFloatRes.finite ⟨base.mant * 10 ^ natOfDigits ds, base.scale⟩
            else PyFloatRes.valueError

/-- The magnitude at which Python float(n) on an integer raises
OverflowError: the end of the double range, 2 ^ 1024 (the
round-to-nearest behavior just below this bound is not modelled;
within range the value is kept exact). -/
def FLOAT_MAX_BOUND : Int := Int.ofNat ((2 : Nat) ^ (1024 : Nat))

/-- Model of Python float(x) on the value shapes validate_metadata can
receive, with the faithful outcome shape: TypeError and ValueError are
caught by the caller, OverflowError is not. -/
def pyFloatR : Val → PyFloatRes
  | .int n =>
    if n ≤ -FLOAT_MAX_BOUND ∨ FLOAT_MAX_BOUND ≤ n then PyFloatRes.overflowError
    else PyFloatRes.finite ⟨n, 0⟩
  | .float d => PyFloatRes.finite d
  | .bool b => PyFloatRes.finite ⟨if b then 1 else 0, 0⟩
  | .str s => pyFloatOfStringR s
  | _ => PyFloatRes.valueError

/-- The tempo field checks of validate_metadata under the full float
model. On nan and on positive infinity neither branch fires
(nan <= 0 and inf <= 0 are false and is_integer is false), so only the
integer-tempo warning is emitted; negative infinity satisfies <= 0 and
is an error; Except.error models the uncaught OverflowError leaving
validate_metadata. -/
def tempoChecksR (tempo : Val) : Except Unit (List Err × List Warn) :=
  match tempo with
  | .pynone => Except.ok ([Err.tempoRequired], [])
  | v =>
    match pyFloatR v with
    | .valueError => Except.ok ([Err.tempoNumeric], [])
    | .overflowError => Except.error ()
    | .nan => Except.ok ([], [Warn.tempoInteger])
    | .inf neg =>
      if neg then Except.ok ([Err.tempoPositive], [])
      else Except.ok ([], [Warn.tempoInteger])
    | .finite d =>
      if decLeZero d then Except.ok ([Err.tempoPositive], [])
      else if !decIsInt d then Except.ok ([], [Warn.tempoInteger])
      else Except.ok ([], [])

/-- Model of validate_metadata under the full float model: identical to
validateMetadata except in the tempo section, with Except.error
modelling the uncaught OverflowError propagating to the caller, in
which case no error or warning lists are produced at all. -/
def validateMetadataR (metadata : Val) : Except Unit (List Err × List Warn) :=
  match metadata with
  | .dict kvs =>
    match tempoChecksR (getVal kvs "tempo") with
    | Except.error u => Except.error u
    | Except.ok tempoC =>
      Except.ok
        (slugErrs (getVal kvs "slug") ++ titleErrs (getVal kvs "title") ++ tempoC.1 ++
           (tagsChecks (getVal kvs "tags")).1 ++
           (resourcesChecks (kvs.lookup (lc "resources"))).1,
         tempoC.2 ++ moodWarns (getVal kvs "mood") ++ (tagsChecks (getVal kvs "tags")).2 ++
           summaryWarns (getVal kvs "summary") ++
           (resourcesChecks (kvs.lookup (lc "resources"))).2)
  | _ => Except.ok ([Err.malformedMetadata], [])

theorem validateMetadataR_ok (kvs : List (List Char × Val)) (E : List Err) (W : List Warn)
    (h : tempoChecksR (getVal kvs "tempo") = Except.ok (E, W)) :
    validateMetadataR (Val.dict kvs) =
      Except.ok
        (slugErrs (getVal kvs "slug") ++ titleErrs (getVal kvs "title") ++ E ++
           (tagsChecks (getVal kvs "tags")).1 ++
           (resourcesChecks (kvs.lookup (lc "resources"))).1,
         W ++ moodWarns (getVal kvs "mood") ++ (tagsChecks (getVal kvs "tags")).2 ++
           summaryWarns (getVal kvs "summary") ++
           (resourcesChecks (kvs.lookup (lc "resources"))).2) := by
  simp only [validateMetadataR, h]

theorem tempoChecksR_of_ne (v : Val) (hv : v ≠ Val.pynone) :
    tempoChecksR v =
      match pyFloatR v with
      | .valueError => Except.ok ([Err.tempoNumeric], [])
      | .overflowError => Except.error ()
      | .nan => Except.ok ([], [Warn.tempoInteger])
      | .inf neg =>
        if neg then Except.ok ([Err.tempoPositive], [])
        else Except.ok ([], [Warn.tempoInteger])
      | .finite d =>
        if decLeZero d then Except.ok ([Err.tempoPositive], [])
        else if !decIsInt d then Except.ok ([], [Warn.tempoInteger])
        else Except.ok ([], []) := by
  cases v <;> first | exact absurd rfl hv | rfl

theorem tempo_err_mem_concat (kvs : List (List Char × Val)) (E : List Err) (e : Err)
    (h1 : e = Err.tempoRequired ∨ e = Err.tempoPositive ∨ e = Err.tempoNumeric) :
    (e ∈ slugErrs (getVal kvs "slug") ++ titleErrs (getVal kvs "title") ++ E ++
        (tagsChecks (getVal kvs "tags")).1 ++
        (resourcesChecks (kvs.lookup (lc "resources"))).1
      ↔ e ∈ E) := by
  simp only [List.mem_append]
  constructor
  · rintro ((((hm | hm) | hm) | hm) | hm)
    · rcases slugErrs_shape _ _ hm with h2 | h2 <;> rcases h1 with h1 | h1 | h1 <;> simp_all
    · have h2 := titleErrs_shape _ _ hm
      rcases h1 with h1 | h1 | h1 <;> simp_all
    · exact hm
    · obtain ⟨i, h2⟩ := tagsChecks_err_shape _ _ hm
      rcases h1 with h1 | h1 | h1 <;> simp_all
    · have h2 := resourcesChecks_err_shape _ _ hm
      rcases h1 with h1 | h1 | h1 <;> simp_all
  · intro hm
    exact Or.inl (Or.inl (Or.inr hm))

theorem tempoInteger_warn_mem_concat (kvs : List (List Char × Val)) (W : List Warn) :
    (Warn.tempoInteger ∈ W ++ moodWarns (getVal kvs "mood") ++
        (tagsChecks (getVal kvs "tags")).2 ++ summaryWarns (getVal kvs "summary") ++
        (resourcesChecks (kvs.lookup (lc "resources"))).2
      ↔ Warn.tempoInteger ∈ W) := by
  simp only [List.mem_append]
  constructor
  · rintro ((((hm | hm) | hm) | hm) | hm)
    · exact hm
    · exact absurd (moodWarns_shape _ _ hm) (by decide)
    · rcases tagsChecks_warn_shape _ _ hm with h2 | h2 | ⟨t, h2⟩ <;> simp_all
    · exact absurd (summaryWarns_shape _ _ hm) (by decide)
    · obtain ⟨i, h2⟩ := resourcesChecks_warn_shape _ _ hm
      simp_all
  · exact fun hm => Or.inl (Or.inl (Or.inl (Or.inl hm)))

/-- C6 counterexample: a tempo given as the string "120": Python
float() accepts numeric strings, so validate_metadata returns no error
at all for this metadata (only the recommended-field warnings), while
the claim requires an error whenever tempo is present but not a number,
giving a string as its example. -/
theorem c6_tempo_counterexample :
    ((([(lc "slug", Val.str (lc "a")), (lc "title", Val.str (lc "t")),
        (lc "tempo", Val.str (lc "120"))] : List (List Char × Val)).lookup
      (lc "tempo")).getD Val.pynone = Val.str (lc "120")) ∧
    validateMetadataR (Val.dict [(lc "slug", Val.str (lc "a")),
      (lc "title", Val.str (lc "t")), (lc "tempo", Val.str (lc "120"))]) =
      Except.ok ([], [Warn.moodRecommended, Warn.tagsRecommended,
        Warn.summaryRecommended]) :=
  ⟨rfl, rfl⟩

/-- C6 (amended): an absent (or null) tempo is an error; a present
tempo on which float() raises TypeError or ValueError is an error - but
the coercion succeeds on numeric strings and booleans (so not every
non-number is rejected) and on the special spellings nan and inf; a
tempo coercing to a finite value at most zero is an error; a tempo
coercing to a positive non-integer finite value yields only the
integer-tempo warning and no tempo error; a tempo coercing to nan also
takes the warning path, not the error path; a tempo whose coercion
overflows (an integer beyond the double range) makes validate_metadata
raise OverflowError instead of returning.  The final two conjuncts
state the finite-value tests in terms of the exact rational value. -/
theorem c6_tempo_amended (kvs : List (List Char × Val)) :
    (getVal kvs "tempo" = Val.pynone →
      ∃ r, validateMetadataR (Val.dict kvs) = Except.ok r ∧ Err.tempoRequired ∈ r.1) ∧
    (getVal kvs "tempo" ≠ Val.pynone →
      pyFloatR (getVal kvs "tempo") = PyFloatRes.valueError →
      ∃ r, validateMetadataR (Val.dict kvs) = Except.ok r ∧ Err.tempoNumeric ∈ r.1) ∧
    (∀ d, getVal kvs "tempo" ≠ Val.pynone →
      pyFloatR (getVal kvs "tempo") = PyFloatRes.finite d → decLeZero d = true →
      ∃ r, validateMetadataR (Val.dict kvs) = Except.ok r ∧ Err.tempoPositive ∈ r.1) ∧
    (∀ d, getVal kvs "tempo" ≠ Val.pynone →
      pyFloatR (getVal kvs "tempo") = PyFloatRes.finite d →
      decLeZero d = false → decIsInt d = false →
      ∃ r, validateMetadataR (Val.dict kvs) = Except.ok r ∧ Warn.tempoInteger ∈ r.2 ∧
        Err.tempoRequired ∉ r.1 ∧ Err.tempoNumeric ∉ r.1 ∧ Err.tempoPositive ∉ r.1) ∧
    (getVal kvs "tempo" ≠ Val.pynone → pyFloatR (getVal kvs "tempo") = PyFloatRes.nan →
      ∃ r, validateMetadataR (Val.dict kvs) = Except.ok r ∧ Warn.tempoInteger ∈ r.2 ∧
        Err.tempoNumeric ∉ r.1) ∧
    (getVal kvs "tempo" ≠ Val.pynone →
      pyFloatR (getVal kvs "tempo") = PyFloatRes.overflowError →
      validateMetadataR (Val.dict kvs) = Except.error ()) ∧
    (∀ d, decLeZero d = true ↔ decVal d ≤ 0) ∧
    (∀ d, decIsInt d = true ↔ ∃ n : Int, decVal d = (n : Rat)) := by
  refine ⟨?_, ?_, ?_, ?_, ?_, ?_, decLeZero_iff, decIsInt_iff⟩
  · intro h
    have ht : tempoChecksR (getVal kvs "tempo") = Except.ok ([Err.tempoRequired], []) := by
      rw [h]
      rfl
    refine ⟨_, validateMetadataR_ok kvs _ _ ht, ?_⟩
    exact (tempo_err_mem_concat kvs [Err.tempoRequired] _ (Or.inl rfl)).mpr (by simp)
  · intro hne hf
    have ht : tempoChecksR (getVal kvs "tempo") = Except.ok ([Err.tempoNumeric], []) := by
      rw [tempoChecksR_of_ne _ hne, hf]
    refine ⟨_, validateMetadataR_ok kvs _ _ ht, ?_⟩
    exact (tempo_err_mem_concat kvs [Err.tempoNumeric] _ (Or.inr (Or.inr rfl))).mpr (by simp)
  · intro d hne hf hle
    have ht : tempoChecksR (getVal kvs "tempo") = Except.ok ([Err.tempoPositive], []) := by
      rw [tempoChecksR_of_ne _ hne, hf]
      simp [hle]
    refine ⟨_, validateMetadataR_ok kvs _ _ ht, ?_⟩
    exact (tempo_err_mem_concat kvs [Err.tempoPositive] _ (Or.inr (Or.inl rfl))).mpr (by simp)
  · intro d hne hf hle hint
    have ht : tempoChecksR (getVal kvs "tempo") = Except.ok ([], [Warn.tempoInteger]) := by
      rw [tempoChecksR_of_ne _ hne, hf]
      simp [hle, hint]
    refine ⟨_, validateMetadataR_ok kvs _ _ ht, ?_, ?_, ?_, ?_⟩
    · exact (tempoInteger_warn_mem_concat kvs [Warn.tempoInteger]).mpr (by simp)
    · intro hmem
      have h2 := (tempo_err_mem_concat kvs [] _ (Or.inl rfl)).mp hmem
      simp at h2
    · intro hmem
      have h2 := (tempo_err_mem_concat kvs [] _ (Or.inr (Or.inr rfl))).mp hmem
      simp at h2
    · intro hmem
      have h2 := (tempo_err_mem_concat kvs [] _ (Or.inr (Or.inl rfl))).mp hmem
      simp at h2
  · intro hne hf
    have ht : tempoChecksR (getVal kvs "tempo") = Except.ok ([], [Warn.tempoInteger]) := by
      rw [tempoChecksR_of_ne _ hne, hf]
    refine ⟨_, validateMetadataR_ok kvs _ _ ht, ?_, ?_⟩
    · exact (tempoInteger_warn_mem_concat kvs [Warn.tempoInteger]).mpr (by simp)
    · intro hmem
      have h2 := (tempo_err_mem_concat kvs [] _ (Or.inr (Or.inr rfl))).mp hmem
      simp at h2
  · intro hne hf
    have ht : tempoChecksR (getVal kvs "tempo") = Except.error () := by
      rw [tempoChecksR_of_ne _ hne, hf]
    simp only [validateMetadataR, ht]

theorem c6_tempo_amended_witness :
    (∃ r, validateMetadataR (Val.dict []) = Except.ok r ∧ Err.tempoRequired ∈ r.1) ∧
    (∃ r, validateMetadataR (Val.dict [(lc "tempo", Val.float ⟨2405, 1⟩)]) =
        Except.ok r ∧ Warn.tempoInteger ∈ r.2 ∧ Err.tempoRequired ∉ r.1 ∧
        Err.tempoNumeric ∉ r.1 ∧ Err.tempoPositive ∉ r.1) ∧
    (∃ r, validateMetadataR (Val.dict [(lc "tempo", Val.str (lc "nan"))]) =
        Except.ok r ∧ Warn.tempoInteger ∈ r.2 ∧ Err.tempoNumeric ∉ r.1) ∧
    validateMetadataR (Val.dict [(lc "tempo", Val.int FLOAT_MAX_BOUND)]) =
      Except.error () :=
  ⟨(c6_tempo_amended []).1 rfl,
   (c6_tempo_amended [(lc "tempo", Val.float ⟨2405, 1⟩)]).2.2.2.1 ⟨2405, 1⟩
     (fun h => Val.noConfusion h) rfl (by decide) (by decide),
   (c6_tempo_amended [(lc "tempo", Val.str (lc "nan"))]).2.2.2.2.1
     (fun h => Val.noConfusion h) (by decide),
   (c6_tempo_amended [(lc "tempo", Val.int FLOAT_MAX_BOUND)]).2.2.2.2.2.1
     (fun h => Val.noConfusion h) (by decide)⟩

theorem gainFold_eq (l : List Dec) (acc : List Warn) :
    l.foldl (fun acc d => if decGtOne d then acc ++ [Warn.gainLiteral d] else acc) acc =
      acc ++ (l.filter decGtOne).map Warn.gainLiteral := by
  induction l generalizing acc with
  | nil => simp
  | cons d t ih =>
    by_cases hd : decGtOne d
    · simp [hd, ih, List.filter_cons, List.append_assoc]
    · simp [hd, ih, List.filter_cons]

theorem validatePatternCode_nonblank (s : List Char) (h : (pyStrip s).isEmpty = false) :
    validatePatternCode (Val.str s) =
      ([], (if !containsSub (lc "setcpm(") (s.filter fun c => c != ' ') &&
            !containsSub (lc "setcps(") (s.filter fun c => c != ' ')
        then [Warn.setTempo] else []) ++
        ((gainScan s).filter decGtOne).map Warn.gainLiteral) := by
  simp only [validatePatternCode, h, Bool.false_eq_true, if_false, gainFold_eq,
    List.nil_append]

def isGainWarn : Warn → Bool
  | .gainLiteral _ => true
  | _ => false

/-- C7: for a non-blank code string, the gain warnings produced by
validate_pattern_code are exactly one warning per scanned occurrence of
a gain call whose captured number exceeds 1, in scan order, each
carrying that parsed value; occurrences with value at most 1 yield no
warning, and the count equals the number of qualifying occurrences.
The last conjunct states the value test exactly: the warning fires for
the literals whose exact rational value is strictly greater than 1. -/
theorem c7_gain_warnings (s : List Char) (h : (pyStrip s).isEmpty = false) :
    ((validatePatternCode (Val.str s)).2.filter isGainWarn =
      ((gainScan s).filter decGtOne).map Warn.gainLiteral) ∧
    ((validatePatternCode (Val.str s)).2.countP isGainWarn =
      (gainScan s).countP decGtOne) ∧
    (∀ d, decGtOne d = true ↔ (1 : Rat) < decVal d) := by
  have hfilter : (validatePatternCode (Val.str s)).2.filter isGainWarn =
      ((gainScan s).filter decGtOne).map Warn.gainLiteral := by
    rw [validatePatternCode_nonblank s h]
    show ((if _ then [Warn.setTempo] else []) ++ _).filter isGainWarn = _
    rw [List.filter_append]
    have h1 : (if !containsSub (lc "setcpm(") (s.filter fun c => c != ' ') &&
          !containsSub (lc "setcps(") (s.filter fun c => c != ' ')
        then [Warn.setTempo] else []).filter isGainWarn = [] := by
      split <;> rfl
    rw [h1, List.nil_append, List.filter_map]
    have h2 : (isGainWarn ∘ Warn.gainLiteral) = fun _ => true := by
      funext d
      rfl
    rw [h2, List.filter_true]
  refine ⟨hfilter, ?_, decGtOne_iff⟩
  rw [List.countP_eq_length_filter, hfilter, List.length_map,
    ← List.countP_eq_length_filter]

theorem c7_gain_warnings_witness :
    ((pyStrip (lc "x.gain(1.5).gain(0.8)")).isEmpty = false) ∧
    (((validatePatternCode (Val.str (lc "x.gain(1.5).gain(0.8)"))).2.filter isGainWarn =
       ((gainScan (lc "x.gain(1.5).gain(0.8)")).filter decGtOne).map Warn.gainLiteral) ∧
     ((validatePatternCode (Val.str (lc "x.gain(1.5).gain(0.8)"))).2.countP isGainWarn =
       (gainScan (lc "x.gain(1.5).gain(0.8)")).countP decGtOne) ∧
     (∀ d, decGtOne d = true ↔ (1 : Rat) < decVal d)) :=
  ⟨by decide, c7_gain_warnings _ (by decide)⟩

/-- Modelled from the claim: removal of every whitespace character
(spaces, tabs and line terminators alike), as the claim describes the
pre-check normalization. -/
def removeWs (s : List Char) : List Char := s.filter fun c => !pyIsSpace c

/-- C8 counterexample: with a tab between the call name and the open
parenthesis, removing all whitespace does produce the setcpm(
substring, so the claim predicts no warning; the source removes only
spaces, so the warning is emitted anyway. -/
theorem c8_tempo_call_counterexample :
    containsSub (lc "setcpm(") (removeWs (lc "setcpm\t(120)")) = true ∧
    Warn.setTempo ∈ (validatePatternCode (Val.str (lc "setcpm\t(120)"))).2 := by
  decide

/-- C8 (amended): for non-blank code, the missing-tempo warning is
emitted exactly when neither setcpm( nor setcps( occurs in the text
after removing only the space characters (U+0020) - not tabs or line
terminators. -/
theorem c8_tempo_call_amended (s : List Char) (h : (pyStrip s).isEmpty = false) :
    Warn.setTempo ∈ (validatePatternCode (Val.str s)).2 ↔
      ¬(containsSub (lc "setcpm(") (s.filter fun c => c != ' ') = true ∨
        containsSub (lc "setcps(") (s.filter fun c => c != ' ') = true) := by
  rw [validatePatternCode_nonblank s h]
  show Warn.setTempo ∈ (if _ then [Warn.setTempo] else []) ++ _ ↔ _
  simp only [List.mem_append, List.mem_map]
  constructor
  · rintro (hm | ⟨d, _, hd⟩)
    · revert hm
      split
      · rename_i hcond
        rw [Bool.and_eq_true, Bool.not_eq_true', Bool.not_eq_true'] at hcond
        intro _
        rintro (hA | hB)
        · rw [hcond.1] at hA
          exact Bool.false_ne_true hA
        · rw [hcond.2] at hB
          exact Bool.false_ne_true hB
      · intro hm
        exact absurd hm (by simp)
    · exact absurd hd (by simp)
  · intro hn
    have hcond : (!containsSub (lc "setcpm(") (s.filter fun c => c != ' ') &&
        !containsSub (lc "setcps(") (s.filter fun c => c != ' ')) = true := by
      push_neg at hn
      rw [Bool.and_eq_true, Bool.not_eq_true', Bool.not_eq_true']
      exact ⟨by simpa using hn.1, by simpa using hn.2⟩
    left
    rw [if_pos hcond]
    simp

theorem c8_tempo_call_amended_witness :
    ((pyStrip (lc "sound()")).isEmpty = false) ∧
    (Warn.setTempo ∈ (validatePatternCode (Val.str (lc "sound()"))).2 ↔
      ¬(containsSub (lc "setcpm(") ((lc "sound()").filter fun c => c != ' ') = true ∨
        containsSub (lc "setcps(") ((lc "sound()").filter fun c => c != ' ') = true)) :=
  ⟨by decide, c8_tempo_call_amended _ (by decide)⟩

/-- The claim's trichotomy on the input of validate_pattern_code: a
string that is non-blank after trimming, versus everything else (null,
a non-string value, or a blank string). -/
def isNonBlankStr : Val → Bool
  | .str s => !(pyStrip s).isEmpty
  | _ => false

/-- C10: for a non-blank string input, validate_pattern_code returns an
empty errors list (only warnings are possible); for every other input
(null, non-string, or blank string) it returns exactly the single
empty-body error and no warnings. -/
theorem c10_pattern_code_errors (v : Val) :
    (isNonBlankStr v = true → (validatePatternCode v).1 = []) ∧
    (isNonBlankStr v = false → validatePatternCode v = ([Err.patternEmpty], [])) := by
  constructor
  · intro h
    cases v <;> simp [isNonBlankStr] at h
    simp [validatePatternCode, h]
  · intro h
    cases v <;> try rfl
    case str s =>
      simp [isNonBlankStr] at h
      simp [validatePatternCode, h]

theorem c10_pattern_code_errors_witness :
    ((validatePatternCode (Val.str (lc "x"))).1 = []) ∧
    (validatePatternCode Val.pynone = ([Err.patternEmpty], [])) :=
  ⟨(c10_pattern_code_errors (Val.str (lc "x"))).1 (by decide),
   (c10_pattern_code_errors Val.pynone).2 (by decide)⟩
